import Mathlib

/-!
Verification of the streaming-response reduction and rendering pipeline of the
chatbot front-end (`src/app.py`): the chunk reducer `reduce_chat_agent_chunks`,
the three format adapters (plain chat-completions, chat-agent deltas, responses
events), and the task-type dispatcher `query_endpoint_and_render`.

Python dicts are modelled as insertion-ordered association lists; Python's
truthiness on optional strings (`None` and `""` are falsy) is made explicit;
a call that would raise (indexing into an empty list) returns `none`; the
streaming call either completes or raises partway through, modelled by
`StreamOutcome`.
-/

namespace App

/-- The `function` payload of a tool call: `name` (may be absent in the raw
responses-format dicts) and the streamed `arguments` string. -/
structure FunctionSpec where
  name : Option String := none
  arguments : String := ""
deriving Repr, DecidableEq, Inhabited

/-- A tool call as it appears on deltas and in reduced messages:
`getattr(tool_call, 'id', None)`, `getattr(tool_call, 'type', "function")`,
`getattr(tool_call, 'function', None)`. -/
structure ToolCall where
  id : Option String := none
  type : String := "function"
  function : Option FunctionSpec := none
deriving Repr, DecidableEq, Inhabited

/-- The common message shape (mlflow `ChatAgentMessage` fields plus the plain
dict messages built by the adapters): absent dict keys / `None` attributes are
`none`. -/
structure Message where
  role : String := ""
  id : Option String := none
  content : Option String := none
  tool_calls : Option (List ToolCall) := none
  tool_call_id : Option String := none
deriving Repr, DecidableEq, Inhabited

/-- The envelope `{"databricks_request_id": ...}` nested under
`databricks_output` in raw stream fragments. -/
structure DatabricksOutput where
  databricks_request_id : Option String := none
deriving Repr, DecidableEq, Inhabited

/-- A validated `ChatAgentChunk` together with the `databricks_output` envelope
read off the raw dict (`raw_chunk.get("databricks_output", {})`). -/
structure ChatAgentChunk where
  delta : Message
  databricks_output : Option DatabricksOutput := none
deriving Repr, DecidableEq, Inhabited

/-- Association-list lookup by key, first match wins — Python's
`call_id in dict` / `dict[call_id]` pair on an insertion-ordered dict. -/
def alookup {κ β : Type} [DecidableEq κ] (k : κ) : List (κ × β) → Option β
  | [] => none
  | p :: ps => if p.1 = k then some p.2 else alookup k ps

/-- In-place update of the entry at key `k` — Python's `dict[k] = f(dict[k])`,
which keeps insertion order. -/
def updAssoc {κ β : Type} [DecidableEq κ] (m : List (κ × β)) (k : κ) (f : β → β) :
    List (κ × β) :=
  m.map (fun p => if p.1 = k then (p.1, f p.2) else p)

/-- Keys of a list in order of first appearance — the key order of a Python
dict populated by insert-if-absent. -/
def firstSeen {α : Type} [DecidableEq α] (xs : List α) : List α :=
  xs.foldl (fun acc x => if x ∈ acc then acc else acc ++ [x]) []

/-- Concatenation of a list of strings in order — `"".join(...)`. -/
def joinAll : List String → String
  | [] => ""
  | s :: ss => s ++ joinAll ss

/-- Python truthiness of an optional-string attribute: `None` and `""` are
falsy. -/
def optTruthy (s : Option String) : Bool :=
  match s with
  | none => false
  | some s => !(s = "")

/-- The value of `getattr(function_info, 'name', "")` guarded by
`if function_info:` (with an absent raw name read as `""`). -/
def funcName (tool_call : ToolCall) : String :=
  match tool_call.function with
  | some f => f.name.getD ""
  | none => ""

/-- The value of `getattr(function_info, 'arguments', "")` guarded by
`if function_info:`. -/
def funcArgs (tool_call : ToolCall) : String :=
  match tool_call.function with
  | some f => f.arguments
  | none => ""

/-- The accumulator dict built per call id:
`{"id": call_id, "type": tool_type, "function": {"name": ..., "arguments": ...}}`. -/
structure ToolCallAcc where
  id : String
  type : String
  name : String
  arguments : String
deriving Repr, DecidableEq, Inhabited

/-- The accumulator dict read back as a tool call (it is literally a
tool-call-shaped dict in the Python source). -/
def accToToolCall (a : ToolCallAcc) : ToolCall :=
  { id := some a.id, type := a.type,
    function := some { name := some a.name, arguments := a.arguments } }

/-- One iteration of the tool-call accumulation loop of
`reduce_chat_agent_chunks` (`src/app.py` lines 174–203): skip falsy call ids;
create a fresh entry on first sight; otherwise concatenate `arguments` and
overwrite `name` only when the delta supplies a nonempty one. -/
def tcStep (tool_call_map : List (String × ToolCallAcc)) (tool_call : ToolCall) :
    List (String × ToolCallAcc) :=
  match tool_call.id with
  | none => tool_call_map
  | some call_id =>
    if call_id = "" then tool_call_map
    else
      match alookup call_id tool_call_map with
      | none =>
          tool_call_map ++
            [(call_id,
              { id := call_id, type := tool_call.type,
                name := funcName tool_call, arguments := funcArgs tool_call })]
      | some _ =>
          updAssoc tool_call_map call_id (fun e =>
            let e := { e with arguments := e.arguments ++ funcArgs tool_call }
            if funcName tool_call = "" then e else { e with name := funcName tool_call })

/-- The tool calls carried by one delta (`delta.tool_calls`, iterating nothing
when the attribute is `None` or the list is empty). -/
def deltaToolCalls (delta : Message) : List ToolCall :=
  match delta.tool_calls with
  | some ts => ts
  | none => []

/-- All tool-call deltas of a delta sequence in arrival order (the double loop
`for delta in deltas: for tool_call in delta.tool_calls`). -/
def allToolCalls (deltas : List Message) : List ToolCall :=
  (deltas.map deltaToolCalls).flatten

/-- The `tool_call_map` dict after the loop of `reduce_chat_agent_chunks`. -/
def toolCallMap (deltas : List Message) : List (String × ToolCallAcc) :=
  (allToolCalls deltas).foldl tcStep []

/-- The last truthy `delta.tool_call_id` seen in the loop, applied by
`result_msg.model_copy(update=...)`; starts from the first delta's value. -/
def lastToolCallId (start : Option String) (deltas : List Message) : Option String :=
  deltas.foldl (fun acc d =>
    match d.tool_call_id with
    | some s => if s = "" then acc else some s
    | none => acc) start

/-- The truthy contents appended to `msg_contents` (`if delta.content:`),
in arrival order. -/
def msgContents (deltas : List Message) : List String :=
  deltas.filterMap (fun d =>
    match d.content with
    | some c => if c = "" then none else some c
    | none => none)

/-- `reduce_chat_agent_chunks` (`src/app.py` lines 154–215). The Python code
indexes `deltas[0]` and raises `IndexError` on an empty list: that failure is
`none`. Otherwise: start from the first delta, thread the last truthy
`tool_call_id`, replace `tool_calls` with the accumulated map values when the
map is nonempty, and set `content` to the joined truthy content fragments. -/
def reduce_chat_agent_chunks : List ChatAgentChunk → Option Message
  | [] => none
  | first :: rest =>
    let deltas := (first :: rest).map (·.delta)
    let first_delta := first.delta
    let tool_call_map := toolCallMap deltas
    let result₀ :=
      { first_delta with tool_call_id := lastToolCallId first_delta.tool_call_id deltas }
    let result₁ :=
      if tool_call_map.isEmpty then result₀
      else { result₀ with tool_calls := some (tool_call_map.map (fun p => accToToolCall p.2)) }
    some { result₁ with content := some (joinAll (msgContents deltas)) }

/-- One step of the request-id accumulation shared by the three adapters:
keep the last truthy `databricks_request_id` seen under `databricks_output`. -/
def dbReqIdStep (request_id : Option String) (dbo : Option DatabricksOutput) :
    Option String :=
  match dbo with
  | some d =>
    match d.databricks_request_id with
    | some r => if r = "" then request_id else some r
    | none => request_id
  | none => request_id

/-- A raw ChatCompletions stream fragment: the optional `choices` list (each
choice optionally carrying a `delta` dict with optional `content`) and the
optional `databricks_output` envelope. Absent dict keys are `none`. -/
structure CCDelta where
  content : Option String := none
deriving Repr, DecidableEq, Inhabited

/-- One element of the `choices` list of a ChatCompletions fragment. -/
structure CCChoice where
  delta : Option CCDelta := none
deriving Repr, DecidableEq, Inhabited

/-- A raw ChatCompletions stream fragment. -/
structure CCChunk where
  choices : Option (List CCChoice) := none
  databricks_output : Option DatabricksOutput := none
deriving Repr, DecidableEq, Inhabited

/-- One iteration of the ChatCompletions streaming loop (`src/app.py` lines
334–349) on the state `(accumulated_content, request_id)`: append the truthy
content of `choices[0].delta` if present, then record a truthy request id. -/
def ccStep (s : String × Option String) (chunk : CCChunk) : String × Option String :=
  let s :=
    match chunk.choices with
    | some (choice :: _) =>
      match choice.delta with
      | some d =>
        match d.content with
        | some c => if c = "" then s else (s.1 ++ c, s.2)
        | none => s
      | none => s
    | _ => s
  (s.1, dbReqIdStep s.2 chunk.databricks_output)

/-- A content part of a responses-format `message` item
(`item["content"]` elements with `.get("type")` and `.get("text", "")`). -/
structure ContentPart where
  type : Option String := none
  text : Option String := none
deriving Repr, DecidableEq, Inhabited

/-- The opaque `item` dict of a responses-format event, with all keys optional
(`item.get(...)`). -/
structure RespItem where
  type : Option String := none
  content : Option (List ContentPart) := none
  call_id : Option String := none
  name : Option String := none
  arguments : Option String := none
  output : Option String := none
deriving Repr, DecidableEq, Inhabited

/-- A raw responses-format stream event: the `type` discriminant key (absent =
`none`), the optional truthy `item`, and the `databricks_output` envelope. -/
structure RespEvent where
  type : Option String := none
  item : Option RespItem := none
  databricks_output : Option DatabricksOutput := none
deriving Repr, DecidableEq, Inhabited

/-- The messages appended to `all_messages` for one responses item
(`src/app.py` lines 460–502): a `message` item contributes one assistant
message per truthy `output_text` part; a `function_call` item one assistant
message with empty content and one tool call; a `function_call_output` item
one tool-role message referencing the call id; anything else contributes
nothing. -/
def itemMessages (item : RespItem) : List Message :=
  if item.type = some "message" then
    (item.content.getD []).filterMap (fun content_part =>
      if content_part.type = some "output_text" then
        let text := content_part.text.getD ""
        if text = "" then none
        else some { role := "assistant", content := some text }
      else none)
  else if item.type = some "function_call" then
    [{ role := "assistant", content := some "",
       tool_calls := some [{ id := item.call_id, type := "function",
                             function := some { name := item.name,
                                                arguments := item.arguments.getD "" } }] }]
  else if item.type = some "function_call_output" then
    [{ role := "tool", content := some (item.output.getD ""),
       tool_call_id := item.call_id }]
  else []

/-- One iteration of the responses streaming loop (`src/app.py` lines 442–508)
on the state `(all_messages, request_id)`: record a truthy request id, then —
only when the raw event carries a `type` key and a truthy `item` — append the
item's translated messages. -/
def respStep (s : List Message × Option String) (raw_event : RespEvent) :
    List Message × Option String :=
  let s := (s.1, dbReqIdStep s.2 raw_event.databricks_output)
  match raw_event.type with
  | none => s
  | some _ =>
    match raw_event.item with
    | none => s
    | some item => (s.1 ++ itemMessages item, s.2)

/-- The messages contributed by one responses event: the translated item when
the event has a `type` key and a truthy item, nothing otherwise. -/
def eventMessages (raw_event : RespEvent) : List Message :=
  match raw_event.type with
  | none => []
  | some _ =>
    match raw_event.item with
    | none => []
    | some item => itemMessages item

/-- One iteration of the chat-agent buffering loop (`src/app.py` lines
394–399): create the per-id buffer in first-seen order, then append the chunk
to its id's buffer. -/
def bufStep (message_buffers : List (Option String × List ChatAgentChunk))
    (chunk : ChatAgentChunk) : List (Option String × List ChatAgentChunk) :=
  match alookup chunk.delta.id message_buffers with
  | none => message_buffers ++ [(chunk.delta.id, [chunk])]
  | some _ => updAssoc message_buffers chunk.delta.id (fun cs => cs ++ [chunk])

/-- The `message_buffers` ordered dict after consuming a whole chat-agent
stream. -/
def chatAgentBuffers (stream : List ChatAgentChunk) :
    List (Option String × List ChatAgentChunk) :=
  stream.foldl bufStep []

/-- The `request_id` accumulated over a chat-agent stream
(`raw_chunk.get("databricks_output", {}).get("databricks_request_id")`,
last truthy value wins). -/
def chatAgentRequestId (stream : List ChatAgentChunk) : Option String :=
  stream.foldl (fun acc c => dbReqIdStep acc c.databricks_output) none

/-- The finalized per-id reductions at stream end (`src/app.py` lines
407–409), in buffer (first-seen) order. -/
def chatAgentFinalize (stream : List ChatAgentChunk) : List (Option Message) :=
  (chatAgentBuffers stream).map (fun p => reduce_chat_agent_chunks p.2)

/-- The finalized response returned up the call chain after a full exchange:
`AssistantResponse(messages=..., request_id=...)`. -/
structure AssistantResponse where
  messages : List Message
  request_id : Option String
deriving Repr, DecidableEq, Inhabited

/-- Outcome of the streaming call `query_endpoint_stream`: either the full
fragment sequence is delivered, or an exception is raised partway through
after some fragments were already received and folded into local state. -/
inductive StreamOutcome (α : Type) where
  | ok (chunks : List α)
  | err (received : List α)
deriving Repr, DecidableEq

/-- The synchronous non-streaming collaborator `query_endpoint`: input
messages to `(messages, request_id)`. -/
def SyncQuery : Type := List Message → List Message × Option String

/-- `query_chat_completions_endpoint_and_render` (`src/app.py` lines
324–366), instrumented with the number of `query_endpoint` fallback calls.
On success: one assistant message with the accumulated content and the last
truthy request id, no fallback call. On an exception partway through: the
partial accumulation over the received fragments is abandoned and the result
of one `query_endpoint` call on the same input messages is returned. -/
def query_chat_completions_endpoint_and_render (query_endpoint : SyncQuery)
    (input_messages : List Message) (outcome : StreamOutcome CCChunk) :
    AssistantResponse × Nat :=
  match outcome with
  | .ok chunks =>
    let s := chunks.foldl ccStep ("", none)
    ({ messages := [{ role := "assistant", content := some s.1 }],
       request_id := s.2 }, 0)
  | .err received =>
    let _abandoned := received.foldl ccStep ("", none)
    let fb := query_endpoint input_messages
    ({ messages := fb.1, request_id := fb.2 }, 1)

/-- `query_chat_agent_endpoint_and_render` (`src/app.py` lines 369–426),
instrumented with the number of `query_endpoint` fallback calls. On success:
the per-id buffers are finalized through the reducer in first-seen order
(every buffer is nonempty, so no reduction fails — see the safety theorems).
On an exception partway through: the partial buffers are abandoned and the
result of one `query_endpoint` call is returned. -/
def query_chat_agent_endpoint_and_render (query_endpoint : SyncQuery)
    (input_messages : List Message) (outcome : StreamOutcome ChatAgentChunk) :
    AssistantResponse × Nat :=
  match outcome with
  | .ok chunks =>
    let message_buffers := chatAgentBuffers chunks
    let messages := message_buffers.filterMap (fun p => reduce_chat_agent_chunks p.2)
    ({ messages := messages, request_id := chatAgentRequestId chunks }, 0)
  | .err received =>
    let _abandoned := chatAgentBuffers received
    let fb := query_endpoint input_messages
    ({ messages := fb.1, request_id := fb.2 }, 1)

/-- `query_responses_endpoint_and_render` (`src/app.py` lines 429–522),
instrumented with the number of `query_endpoint` fallback calls. On success:
the flat translated message list and last truthy request id. On an exception
partway through: the partial list is abandoned and the result of one
`query_endpoint` call is returned. -/
def query_responses_endpoint_and_render (query_endpoint : SyncQuery)
    (input_messages : List Message) (outcome : StreamOutcome RespEvent) :
    AssistantResponse × Nat :=
  match outcome with
  | .ok events =>
    let s := events.foldl respStep ([], none)
    ({ messages := s.1, request_id := s.2 }, 0)
  | .err received =>
    let _abandoned := received.foldl respStep ([], none)
    let fb := query_endpoint input_messages
    ({ messages := fb.1, request_id := fb.2 }, 1)

/-- The three format adapters the dispatcher can select. -/
inductive AdapterKind where
  | responses
  | chatAgent
  | chatCompletions
deriving Repr, DecidableEq

/-- The dispatch decision of `query_endpoint_and_render` (`src/app.py` lines
314–321): `"agent/v1/responses"` to the responses adapter,
`"agent/v2/chat"` to the chat-agent adapter, everything else to the plain
chat-completions adapter. -/
def query_endpoint_and_render (task_type : String) : AdapterKind :=
  if task_type = "agent/v1/responses" then .responses
  else if task_type = "agent/v2/chat" then .chatAgent
  else .chatCompletions

/-- Generic insert-or-update step on an insertion-ordered dict: skip elements
without a key, create an entry at the end on first sight, update in place
afterwards. -/
def odStep {α κ β : Type} [DecidableEq κ] (key : α → Option κ) (mk : α → β) (upd : α → β → β)
    (m : List (κ × β)) (x : α) : List (κ × β) :=
  match key x with
  | none => m
  | some k =>
    match alookup k m with
    | none => m ++ [(k, mk x)]
    | some _ => updAssoc m k (upd x)

/-- The dict built by folding `odStep` over a list from the empty dict. -/
def odFold {α κ β : Type} [DecidableEq κ] (key : α → Option κ) (mk : α → β) (upd : α → β → β) (xs : List α) :
    List (κ × β) :=
  xs.foldl (odStep key mk upd) []

/-- The value accumulated for one key: `mk` on its first element, `upd` folded
over the rest. -/
def accum {α β : Type} [Inhabited β] (mk : α → β) (upd : α → β → β) : List α → β
  | [] => default
  | y :: ys => ys.foldl (fun b x => upd x b) (mk y)

/-- The truthy call id of a tool-call delta (`if call_id:` after
`getattr(tool_call, 'id', None)`): `none` when absent or empty. -/
def tcKey (tool_call : ToolCall) : Option String :=
  match tool_call.id with
  | none => none
  | some c => if c = "" then none else some c

/-- The fresh accumulator entry created on first sight of a call id. -/
def tcMk (tool_call : ToolCall) : ToolCallAcc :=
  { id := tool_call.id.getD "", type := tool_call.type,
    name := funcName tool_call, arguments := funcArgs tool_call }

/-- The in-place update of an existing accumulator entry: concatenate the
arguments, overwrite the name only when nonempty. -/
def tcUpd (tool_call : ToolCall) (e : ToolCallAcc) : ToolCallAcc :=
  let e := { e with arguments := e.arguments ++ funcArgs tool_call }
  if funcName tool_call = "" then e else { e with name := funcName tool_call }

/-- The key of a chat-agent chunk in the `message_buffers` dict: its delta's
message id (always present as a key, possibly `None`-valued). -/
def bufKey (chunk : ChatAgentChunk) : Option (Option String) :=
  some chunk.delta.id

/-- A fresh one-chunk buffer. -/
def bufMk (chunk : ChatAgentChunk) : List ChatAgentChunk := [chunk]

/-- Appending a chunk to an existing buffer. -/
def bufUpd (chunk : ChatAgentChunk) (cs : List ChatAgentChunk) : List ChatAgentChunk :=
  cs ++ [chunk]

/-- The tool-call deltas for one call id, in arrival order. -/
def matchingToolCalls (deltas : List Message) (cid : String) : List ToolCall :=
  (allToolCalls deltas).filter (fun tc => tc.id = some cid)

/-- The truthy call ids carried by the tool-call deltas, in arrival order
(with repetitions). -/
def truthyCallIds (deltas : List Message) : List String :=
  (allToolCalls deltas).filterMap tcKey

/-- In-order concatenation of the argument fragments of a tool-call delta
sequence. -/
def argConcat (tcs : List ToolCall) : String :=
  joinAll (tcs.map funcArgs)

/-- The last nonempty name fragment of a tool-call delta sequence, or `""` if
all its name fragments are empty. -/
def lastNonEmptyName (tcs : List ToolCall) : String :=
  (((tcs.map funcName).filter (fun n => n ≠ "")).getLast?).getD ""

/-- The accumulator entry the reducer ends up with for one call id. -/
def tcEntry (deltas : List Message) (cid : String) : ToolCallAcc :=
  { id := cid, type := (matchingToolCalls deltas cid).headI.type,
    name := lastNonEmptyName (matchingToolCalls deltas cid),
    arguments := argConcat (matchingToolCalls deltas cid) }

/-- Two fragments for the same call id whose argument fragments are `"ab"`
then `"cd"`; the second one echoes an empty name. -/
def c1ex : List ChatAgentChunk :=
  [ { delta :=
        { role := "assistant", id := some "m1",
          tool_calls :=
            some [{ id := some "call_1", type := "function",
                    function := some { name := some "lookup", arguments := "ab" } }] } },
    { delta :=
        { role := "assistant", id := some "m1",
          tool_calls :=
            some [{ id := some "call_1", type := "function",
                    function := some { name := some "", arguments := "cd" } }] } } ]

/-- A name `"f"` established on the first fragment and omitted (empty) on the
second fragment for the same id. -/
def c3ex : List ChatAgentChunk :=
  [ { delta :=
        { role := "assistant", id := some "m2",
          tool_calls :=
            some [{ id := some "call_7", type := "function",
                    function := some { name := some "f", arguments := "a" } }] } },
    { delta :=
        { role := "assistant", id := some "m2",
          tool_calls :=
            some [{ id := some "call_7", type := "function",
                    function := some { name := some "", arguments := "b" } }] } } ]

/-- The spec's worked example: contents `["Hel", "lo, ", "world"]`. -/
def c4ex : List ChatAgentChunk :=
  [ { delta := { role := "assistant", id := some "m3", content := some "Hel" } },
    { delta := { role := "assistant", id := some "m3", content := some "lo, " } },
    { delta := { role := "assistant", id := some "m3", content := some "world" } } ]

/-- A minimal non-empty fragment sequence. -/
def c9ex : List ChatAgentChunk :=
  [ { delta := { role := "assistant", id := some "m9", content := some "hi" } } ]

/-- A single fragment whose only tool-call delta carries no call id. -/
def c10Chunk : ChatAgentChunk :=
  { delta :=
      { role := "assistant", id := some "m1",
        tool_calls :=
          some [{ id := none, type := "function",
                  function := some { name := some "f", arguments := "x" } }] } }

/-- The message `reduce_chat_agent_chunks [c10Chunk]` produces. -/
def c10Reduced : Message :=
  { role := "assistant", id := some "m1", content := some "",
    tool_calls :=
      some [{ id := none, type := "function",
              function := some { name := some "f", arguments := "x" } }],
    tool_call_id := none }

/-- One truthy-id delta alongside one id-less delta. -/
def c10ex : List ChatAgentChunk :=
  [ { delta :=
        { role := "assistant", id := some "m1",
          tool_calls :=
            some [{ id := some "call_2", type := "function",
                    function := some { name := some "g", arguments := "y" } },
                  { id := none, type := "function",
                    function := some { name := some "h", arguments := "z" } }] } } ]


/-- The chunks of the chat-agent interleaving example: ids `A`, `B`, `A`, `B`. -/
def c5Stream : List ChatAgentChunk :=
  [ { delta := { role := "assistant", id := some "A", content := some "a1" } },
    { delta := { role := "assistant", id := some "B", content := some "b1" } },
    { delta := { role := "assistant", id := some "A", content := some "a2" } },
    { delta := { role := "assistant", id := some "B", content := some "b2" } } ]

/-- The C6 example event stream:
`[message("Hi"), function_call(name="f", args="\x7b\x7d"), function_call_output("ok")]`. -/
def c6Events : List RespEvent :=
  [ { type := some "response.output_item.done",
      item := some
        { type := some "message",
          content := some [{ type := some "output_text", text := some "Hi" }] } },
    { type := some "response.output_item.done",
      item := some
        { type := some "function_call", call_id := some "call_9",
          name := some "f", arguments := some "\x7b\x7d" } },
    { type := some "response.output_item.done",
      item := some
        { type := some "function_call_output", call_id := some "call_9",
          output := some "ok" } } ]

/-- A raw ChatCompletions fragment with no `choices` key and no
`databricks_output` key. -/
def c7ccChunk : CCChunk :=
  { choices := none, databricks_output := none }

/-- A raw responses event with no `type` key and no `databricks_output` key. -/
def c7respEvent : RespEvent :=
  { type := none, item := none, databricks_output := none }

/-! Lemmas and claim theorems. -/

theorem accum_append {α β : Type} [Inhabited β] (mk : α → β) (upd : α → β → β)
    (ys : List α) (x : α) (h : ys ≠ []) :
    accum mk upd (ys ++ [x]) = upd x (accum mk upd ys) := by
  match ys with
  | [] => exact absurd rfl h
  | y :: t => simp [accum, List.foldl_append]

theorem alookup_graph {κ β : Type} [DecidableEq κ] (g : κ → β) (l : List κ) (k : κ) :
    alookup k (l.map fun i => (i, g i)) = if k ∈ l then some (g k) else none := by
  induction l with
  | nil => simp [alookup]
  | cons a t ih =>
    simp only [List.map_cons, alookup]
    by_cases h : a = k
    · subst h; simp
    · simp only [if_neg h, ih, List.mem_cons]
      have : ¬ k = a := fun hk => h hk.symm
      simp [this]

theorem updAssoc_graph {κ β : Type} [DecidableEq κ] (g : κ → β) (l : List κ) (k : κ) (f : β → β) :
    updAssoc (l.map fun i => (i, g i)) k f
      = l.map fun i => (i, if i = k then f (g i) else g i) := by
  simp only [updAssoc, List.map_map]
  refine List.map_congr_left ?_
  intro a _
  by_cases h : a = k <;> simp [h]

theorem firstSeen_append {γ : Type} [DecidableEq γ] (l : List γ) (x : γ) :
    firstSeen (l ++ [x])
      = if x ∈ firstSeen l then firstSeen l else firstSeen l ++ [x] := by
  simp [firstSeen, List.foldl_append]

theorem mem_firstSeen {γ : Type} [DecidableEq γ] (l : List γ) :
    ∀ a, a ∈ firstSeen l ↔ a ∈ l := by
  induction l using List.reverseRecOn with
  | nil => intro a; simp [firstSeen]
  | append_singleton t x ih =>
    intro a
    rw [firstSeen_append]
    by_cases h : x ∈ firstSeen t
    · rw [if_pos h]
      constructor
      · intro ha; exact List.mem_append_left _ ((ih a).1 ha)
      · intro ha
        rcases List.mem_append.1 ha with ha | ha
        · exact (ih a).2 ha
        · simp only [List.mem_singleton] at ha; subst ha; exact h
    · rw [if_neg h]
      constructor
      · intro ha
        rcases List.mem_append.1 ha with ha | ha
        · exact List.mem_append_left _ ((ih a).1 ha)
        · exact List.mem_append_right _ ha
      · intro ha
        rcases List.mem_append.1 ha with ha | ha
        · exact List.mem_append_left _ ((ih a).2 ha)
        · exact List.mem_append_right _ ha

theorem nodup_firstSeen {γ : Type} [DecidableEq γ] (l : List γ) :
    (firstSeen l).Nodup := by
  induction l using List.reverseRecOn with
  | nil => simp [firstSeen]
  | append_singleton t x ih =>
    rw [firstSeen_append]
    by_cases h : x ∈ firstSeen t
    · simpa [h] using ih
    · rw [if_neg h]
      refine List.nodup_append.2 ⟨ih, List.nodup_singleton x, ?_⟩
      intro a ha hax
      simp only [List.mem_singleton] at hax
      subst hax
      exact h ha

theorem firstSeen_eq_nil_iff {γ : Type} [DecidableEq γ] (l : List γ) :
    firstSeen l = [] ↔ l = [] := by
  constructor
  · intro h
    by_contra hne
    obtain ⟨a, ha⟩ := List.exists_mem_of_ne_nil l hne
    have := (mem_firstSeen l a).2 ha
    rw [h] at this
    exact absurd this (List.not_mem_nil a)
  · intro h; subst h; rfl

theorem odFold_append {α κ β : Type} [DecidableEq κ] (key : α → Option κ) (mk : α → β) (upd : α → β → β)
    (xs : List α) (x : α) :
    odFold key mk upd (xs ++ [x]) = odStep key mk upd (odFold key mk upd xs) x := by
  simp [odFold, List.foldl_append]

theorem filter_eq_nil_of_not_mem_filterMap {α κ : Type} [DecidableEq κ] (key : α → Option κ) (l : List α) (k : κ)
    (h : k ∉ l.filterMap key) :
    l.filter (fun x => key x = some k) = [] := by
  refine List.filter_eq_nil_iff.2 ?_
  intro a ha
  simp only [decide_eq_true_eq]
  intro hk
  exact h (List.mem_filterMap.2 ⟨a, ha, hk⟩)

theorem filter_ne_nil_of_mem_filterMap {α κ : Type} [DecidableEq κ] (key : α → Option κ) (l : List α) (k : κ)
    (h : k ∈ l.filterMap key) :
    l.filter (fun x => key x = some k) ≠ [] := by
  obtain ⟨a, ha, hk⟩ := List.mem_filterMap.1 h
  have : a ∈ l.filter (fun x => key x = some k) :=
    List.mem_filter.2 ⟨ha, by simp [hk]⟩
  exact List.ne_nil_of_mem this

/-- The central characterization: the insert-or-update fold equals the graph
of the per-key accumulation over the keys in first-seen order. -/
theorem odFold_eq {α κ β : Type} [DecidableEq κ] [Inhabited β] (key : α → Option κ) (mk : α → β) (upd : α → β → β)
    (xs : List α) :
    odFold key mk upd xs
      = (firstSeen (xs.filterMap key)).map
          (fun k => (k, accum mk upd (xs.filter (fun x => key x = some k)))) := by
  induction xs using List.reverseRecOn with
  | nil => rfl
  | append_singleton t x ih =>
    rw [odFold_append, ih]
    cases hk : key x with
    | none =>
      have hids : (t ++ [x]).filterMap key = t.filterMap key := by
        simp [List.filterMap_append, hk]
      simp only [odStep, hk]
      rw [hids]
      refine List.map_congr_left ?_
      intro k _
      have hfil : (t ++ [x]).filter (fun y => key y = some k)
          = t.filter (fun y => key y = some k) := by
        simp [List.filter_append, hk]
      rw [hfil]
    | some k₀ =>
      have hids : (t ++ [x]).filterMap key = t.filterMap key ++ [k₀] := by
        simp [List.filterMap_append, hk]
      simp only [odStep, hk]
      rw [hids, alookup_graph, firstSeen_append]
      by_cases hmem : k₀ ∈ firstSeen (t.filterMap key)
      · simp only [if_pos hmem, updAssoc_graph]
        refine List.map_congr_left ?_
        intro k hkmem
        by_cases hkk : k = k₀
        · subst hkk
          have hne : t.filter (fun y => key y = some k) ≠ [] :=
            filter_ne_nil_of_mem_filterMap key t k ((mem_firstSeen _ k).1 hmem)
          have hfil : (t ++ [x]).filter (fun y => key y = some k)
              = t.filter (fun y => key y = some k) ++ [x] := by
            simp [List.filter_append, hk]
          simp [hfil, accum_append _ _ _ _ hne]
        · have hkk' : ¬ (k₀ = k) := fun hh => hkk hh.symm
          have hfil : (t ++ [x]).filter (fun y => key y = some k)
              = t.filter (fun y => key y = some k) := by
            simp [List.filter_append, hk, hkk']
          simp [hfil, hkk]
      · simp only [if_neg hmem, List.map_append]
        congr 1
        · refine List.map_congr_left ?_
          intro k hkmem
          have hkk' : ¬ (k₀ = k) := fun hh => hmem (hh ▸ hkmem)
          have hfil : (t ++ [x]).filter (fun y => key y = some k)
              = t.filter (fun y => key y = some k) := by
            simp [List.filter_append, hk, hkk']
          rw [hfil]
        · have hnil : t.filter (fun y => key y = some k₀) = [] :=
            filter_eq_nil_of_not_mem_filterMap key t k₀
              (fun hc => hmem ((mem_firstSeen _ k₀).2 hc))
          have hfil : (t ++ [x]).filter (fun y => key y = some k₀) = [x] := by
            simp [List.filter_append, hnil, hk]
          simp only [List.map_cons, List.map_nil]
          rw [hfil]
          simp [accum]

theorem tcStep_eq_odStep (m : List (String × ToolCallAcc)) (tool_call : ToolCall) :
    tcStep m tool_call = odStep tcKey tcMk tcUpd m tool_call := by
  cases h : tool_call.id with
  | none => simp [tcStep, odStep, tcKey, h]
  | some c =>
    by_cases hc : c = ""
    · simp [tcStep, odStep, tcKey, h, hc]
    · simp only [tcStep, odStep, tcKey, h, if_neg hc]
      cases alookup c m with
      | none => simp [tcMk, h]
      | some e => rfl

theorem toolCallMap_eq_odFold (deltas : List Message) :
    toolCallMap deltas = odFold tcKey tcMk tcUpd (allToolCalls deltas) :=
  List.foldl_ext _ _ [] (fun m tc _ => tcStep_eq_odStep m tc)

theorem bufStep_eq_odStep (m : List (Option String × List ChatAgentChunk))
    (chunk : ChatAgentChunk) :
    bufStep m chunk = odStep bufKey bufMk bufUpd m chunk := by
  simp only [bufStep, odStep, bufKey]
  cases alookup chunk.delta.id m with
  | none => simp [bufMk]
  | some cs => rfl

theorem chatAgentBuffers_eq_odFold (stream : List ChatAgentChunk) :
    chatAgentBuffers stream = odFold bufKey bufMk bufUpd stream :=
  List.foldl_ext _ _ [] (fun m c _ => bufStep_eq_odStep m c)

theorem foldl_append_singleton {γ : Type} (l start : List γ) :
    l.foldl (fun b x => b ++ [x]) start = start ++ l := by
  induction l generalizing start with
  | nil => simp
  | cons a t ih => simp [ih, List.append_assoc]

theorem accum_buf (ys : List ChatAgentChunk) (h : ys ≠ []) :
    accum bufMk bufUpd ys = ys := by
  match ys with
  | [] => exact absurd rfl h
  | y :: t =>
    show t.foldl (fun b x => bufUpd x b) (bufMk y) = y :: t
    exact foldl_append_singleton t [y]

/-- The `message_buffers` dict is the graph, over the message ids in
first-seen order, of the subsequence of chunks carrying each id. -/
theorem chatAgentBuffers_eq (stream : List ChatAgentChunk) :
    chatAgentBuffers stream
      = (firstSeen (stream.map (fun c => c.delta.id))).map
          (fun i => (i, stream.filter (fun c => c.delta.id = i))) := by
  rw [chatAgentBuffers_eq_odFold, odFold_eq]
  have hids : stream.filterMap bufKey = stream.map (fun c => c.delta.id) := by
    induction stream with
    | nil => rfl
    | cons a t ih => simp [List.filterMap_cons, bufKey, ih]
  rw [hids]
  refine List.map_congr_left ?_
  intro i _
  have hfil : stream.filter (fun c => bufKey c = some i)
      = stream.filter (fun c => c.delta.id = i) := by
    refine List.filter_congr ?_
    intro c _
    simp [bufKey]
  rw [hfil]
  congr 1
  have hne : stream.filter (fun c => c.delta.id = i) ≠ [] := by
    have := filter_ne_nil_of_mem_filterMap bufKey stream i (by
      rw [hids]
      exact (mem_firstSeen _ i).1 (by assumption))
    rwa [hfil] at this
  exact accum_buf _ hne

theorem joinAll_append (l l' : List String) :
    joinAll (l ++ l') = joinAll l ++ joinAll l' := by
  induction l with
  | nil => simp [joinAll, String.empty_append]
  | cons a t ih => simp [joinAll, ih, String.append_assoc]

theorem argConcat_append (tcs : List ToolCall) (x : ToolCall) :
    argConcat (tcs ++ [x]) = argConcat tcs ++ funcArgs x := by
  simp only [argConcat, List.map_append, joinAll_append, List.map_cons, List.map_nil]
  simp [joinAll, String.append_empty]

theorem lastNonEmptyName_append (tcs : List ToolCall) (x : ToolCall) :
    lastNonEmptyName (tcs ++ [x])
      = if funcName x = "" then lastNonEmptyName tcs else funcName x := by
  simp only [lastNonEmptyName, List.map_append, List.filter_append, List.map_cons,
    List.map_nil]
  by_cases h : funcName x = ""
  · simp [h]
  · simp [h, List.getLast?_concat]

theorem accum_tc_cons (y : ToolCall) (ys : List ToolCall) :
    accum tcMk tcUpd (y :: ys)
      = { id := y.id.getD "", type := y.type,
          name := lastNonEmptyName (y :: ys), arguments := argConcat (y :: ys) } := by
  induction ys using List.reverseRecOn with
  | nil =>
    show tcMk y = _
    unfold tcMk
    by_cases h : funcName y = "" <;>
      simp [lastNonEmptyName, argConcat, joinAll, h, String.append_empty]
  | append_singleton t x ih =>
    rw [← List.cons_append, accum_append tcMk tcUpd (y :: t) x (by simp), ih]
    simp only [tcUpd, List.cons_append, argConcat_append, lastNonEmptyName_append,
      ← List.cons_append]
    by_cases h : funcName x = "" <;> simp [h]

theorem tcKey_eq_some (tc : ToolCall) (cid : String) :
    tcKey tc = some cid ↔ (tc.id = some cid ∧ cid ≠ "") := by
  unfold tcKey
  cases hid : tc.id with
  | none => simp
  | some c =>
    by_cases hc : c = ""
    · subst hc
      simp only [if_pos rfl, hid]
      simp
      exact fun hh => hh.symm
    · simp only [if_neg hc, Option.some.injEq]
      constructor
      · intro hcc; exact ⟨hcc ▸ rfl, hcc ▸ hc⟩
      · intro hcc; simpa using hcc.1

theorem mem_truthyCallIds_ne (deltas : List Message) (cid : String)
    (h : cid ∈ truthyCallIds deltas) : cid ≠ "" := by
  obtain ⟨tc, _, hk⟩ := List.mem_filterMap.1 h
  exact ((tcKey_eq_some tc cid).1 hk).2

theorem tcKey_eq_some_iff (tc : ToolCall) (cid : String) (h : cid ≠ "") :
    (tcKey tc = some cid) ↔ tc.id = some cid := by
  rw [tcKey_eq_some]
  exact and_iff_left h

/-- The tool-call map is the graph, over the truthy call ids in first-seen
order, of the per-id accumulation over that id's deltas in arrival order. -/
theorem toolCallMap_eq (deltas : List Message) :
    toolCallMap deltas
      = (firstSeen (truthyCallIds deltas)).map (fun cid => (cid, tcEntry deltas cid)) := by
  rw [toolCallMap_eq_odFold, odFold_eq]
  refine List.map_congr_left ?_
  intro cid hmem
  have hmem' : cid ∈ truthyCallIds deltas := (mem_firstSeen _ cid).1 hmem
  have hcid : cid ≠ "" := mem_truthyCallIds_ne deltas cid hmem'
  have hfil : (allToolCalls deltas).filter (fun tc => tcKey tc = some cid)
      = matchingToolCalls deltas cid := by
    refine List.filter_congr ?_
    intro tc _
    simp [tcKey_eq_some_iff tc cid hcid]
  rw [hfil]
  have hne : matchingToolCalls deltas cid ≠ [] := by
    have := filter_ne_nil_of_mem_filterMap tcKey (allToolCalls deltas) cid hmem'
    rwa [hfil] at this
  obtain ⟨y, t, hyt⟩ : ∃ y t, matchingToolCalls deltas cid = y :: t := by
    cases hm : matchingToolCalls deltas cid with
    | nil => exact absurd hm hne
    | cons y t => exact ⟨y, t, rfl⟩
  have hy : y.id = some cid := by
    have : y ∈ matchingToolCalls deltas cid := hyt ▸ List.mem_cons_self y t
    have := List.mem_filter.1 this
    simpa using this.2
  rw [hyt, accum_tc_cons]
  unfold tcEntry
  rw [hyt]
  simp [hy]

theorem reduce_fields (first : ChatAgentChunk) (rest : List ChatAgentChunk) :
    ∃ m, reduce_chat_agent_chunks (first :: rest) = some m ∧
      m.role = first.delta.role ∧
      m.id = first.delta.id ∧
      m.content = some (joinAll (msgContents ((first :: rest).map (·.delta)))) ∧
      m.tool_calls
        = (if (toolCallMap ((first :: rest).map (·.delta))).isEmpty
           then first.delta.tool_calls
           else some ((toolCallMap ((first :: rest).map (·.delta))).map
                       (fun p => accToToolCall p.2))) := by
  refine ⟨_, rfl, ?_, ?_, ?_, ?_⟩
  all_goals simp only [reduce_chat_agent_chunks, List.map_cons]
  all_goals
    cases hmap : toolCallMap (first.delta :: rest.map (·.delta)) with
    | nil => simp [hmap]
    | cons p q => simp [hmap]

theorem joinAll_msgContents (deltas : List Message) :
    joinAll (msgContents deltas) = joinAll (deltas.map (fun d => d.content.getD "")) := by
  induction deltas with
  | nil => rfl
  | cons d t ih =>
    simp only [msgContents, List.filterMap_cons, List.map_cons] at ih ⊢
    cases hc : d.content with
    | none =>
      simp only [joinAll, Option.getD_none]
      rw [String.empty_append]
      exact ih
    | some c =>
      by_cases h : c = ""
      · subst h
        simp only [if_pos rfl, joinAll, Option.getD_some]
        rw [String.empty_append]
        exact ih
      · simp only [if_neg h, joinAll, Option.getD_some]
        rw [ih]

theorem filter_graph_single {γ δ : Type} [DecidableEq γ] (l : List γ) (f : γ → δ)
    (p : δ → Bool) (c : γ) :
    l.Nodup → c ∈ l → (∀ a ∈ l, p (f a) = decide (a = c)) →
    (l.map f).filter p = [f c] := by
  induction l with
  | nil => intro _ hc _; cases hc
  | cons a t ih =>
    intro hn hc hp
    rcases List.mem_cons.1 hc with hac | hct
    · have hpa : p (f a) = true := by
        rw [hp a (List.mem_cons_self a t)]
        simp [hac]
      have hrest : (t.map f).filter p = [] := by
        refine List.filter_eq_nil_iff.2 ?_
        intro b hb
        obtain ⟨x, hx, hfx⟩ := List.mem_map.1 hb
        rw [← hfx, hp x (List.mem_cons_of_mem _ hx)]
        simp only [decide_eq_true_eq]
        intro hxc
        exact (List.nodup_cons.1 hn).1 ((hxc.trans hac) ▸ hx)
      simp [List.filter_cons, hpa, hrest, hac]
    · have hpa : p (f a) = false := by
        rw [hp a (List.mem_cons_self a t)]
        simp only [decide_eq_false_iff_not]
        exact fun hac => (List.nodup_cons.1 hn).1 (hac ▸ hct)
      have hrec := ih (List.nodup_cons.1 hn).2 hct
        (fun b hb => hp b (List.mem_cons_of_mem _ hb))
      simp [List.filter_cons, hpa, hrec]

/-- When some truthy call id occurs, the reduced message's tool calls are
exactly the accumulated entries, and the entry for each truthy id `cid` is the
unique tool call with id `cid` in the output. -/
theorem reduce_toolCall_entry (chunks : List ChatAgentChunk) (h : chunks ≠ [])
    (cid : String) (hcid : cid ∈ truthyCallIds (chunks.map (·.delta))) :
    ∃ m tcs, reduce_chat_agent_chunks chunks = some m ∧
      m.tool_calls = some tcs ∧
      tcs.filter (fun t => t.id = some cid)
        = [accToToolCall (tcEntry (chunks.map (·.delta)) cid)] := by
  match chunks with
  | first :: rest =>
    obtain ⟨m, hm, _, _, _, htc⟩ := reduce_fields first rest
    have hfs : cid ∈ firstSeen (truthyCallIds ((first :: rest).map (·.delta))) :=
      (mem_firstSeen _ cid).2 hcid
    have hne : toolCallMap ((first :: rest).map (·.delta)) ≠ [] := by
      rw [toolCallMap_eq]
      intro hnil
      rw [List.map_eq_nil_iff] at hnil
      rw [hnil] at hfs
      exact List.not_mem_nil cid hfs
    have hE : (toolCallMap ((first :: rest).map (·.delta))).isEmpty = false := by
      cases hmap : toolCallMap ((first :: rest).map (·.delta)) with
      | nil => exact absurd hmap hne
      | cons p q => rfl
    rw [hE, if_neg (by simp)] at htc
    refine ⟨m, _, hm, htc, ?_⟩
    rw [toolCallMap_eq, List.map_map]
    refine filter_graph_single _ _ _ cid (nodup_firstSeen _) hfs ?_
    intro a _
    simp [Function.comp, accToToolCall, tcEntry]


theorem lastNonEmptyName_ne (tcs : List ToolCall)
    (h : ((tcs.map funcName).filter (fun n => n ≠ "")) ≠ []) :
    lastNonEmptyName tcs ≠ "" := by
  unfold lastNonEmptyName
  rw [List.getLast?_eq_getLast _ h]
  simp only [Option.getD_some]
  have hmem := List.getLast_mem h
  have := List.mem_filter.1 hmem
  simpa using this.2

/-- Claim C1: for every fragment sequence fed to the chunk reducer and every
(truthy) tool-call id appearing among its tool-call deltas, the reduced
message has exactly one tool call with that id, and its arguments string
equals the concatenation, in arrival order, of the argument fragments
supplied for that id — `argConcat` over exactly the matching deltas, so
nothing is reordered, deduplicated, or dropped. -/
theorem c1_arguments_are_ordered_concat (chunks : List ChatAgentChunk)
    (h : chunks ≠ []) (cid : String)
    (hcid : cid ∈ truthyCallIds (chunks.map (·.delta))) :
    ∃ m tcs tc, reduce_chat_agent_chunks chunks = some m ∧
      m.tool_calls = some tcs ∧
      tcs.filter (fun t => t.id = some cid) = [tc] ∧
      funcArgs tc = argConcat (matchingToolCalls (chunks.map (·.delta)) cid) := by
  obtain ⟨m, tcs, hm, htcs, hfil⟩ := reduce_toolCall_entry chunks h cid hcid
  exact ⟨m, tcs, _, hm, htcs, hfil, rfl⟩

theorem c1_witness :
    c1ex ≠ [] ∧ "call_1" ∈ truthyCallIds (c1ex.map (·.delta)) ∧
    ∃ m tcs tc, reduce_chat_agent_chunks c1ex = some m ∧
      m.tool_calls = some tcs ∧
      tcs.filter (fun t => t.id = some "call_1") = [tc] ∧
      funcArgs tc = argConcat (matchingToolCalls (c1ex.map (·.delta)) "call_1") :=
  ⟨by decide, by decide,
   c1_arguments_are_ordered_concat c1ex (by decide) "call_1" (by decide)⟩

/-- Claim C3: for every fragment sequence and truthy call id, the reduced tool
call's name is the last nonempty name fragment supplied for that id (or `""`
when none was ever supplied): an established name is never blanked by a later
empty name, and a later nonempty name replaces it. -/
theorem c3_name_never_blanked (chunks : List ChatAgentChunk)
    (h : chunks ≠ []) (cid : String)
    (hcid : cid ∈ truthyCallIds (chunks.map (·.delta))) :
    ∃ m tcs tc, reduce_chat_agent_chunks chunks = some m ∧
      m.tool_calls = some tcs ∧
      tcs.filter (fun t => t.id = some cid) = [tc] ∧
      funcName tc = lastNonEmptyName (matchingToolCalls (chunks.map (·.delta)) cid) ∧
      ((((matchingToolCalls (chunks.map (·.delta)) cid).map funcName).filter
          (fun n => n ≠ "")) ≠ [] → funcName tc ≠ "") := by
  obtain ⟨m, tcs, hm, htcs, hfil⟩ := reduce_toolCall_entry chunks h cid hcid
  refine ⟨m, tcs, _, hm, htcs, hfil, rfl, ?_⟩
  intro hne
  have hfn : funcName (accToToolCall (tcEntry (chunks.map (·.delta)) cid))
      = lastNonEmptyName (matchingToolCalls (chunks.map (·.delta)) cid) := rfl
  rw [hfn]
  exact lastNonEmptyName_ne _ hne

theorem c3_witness :
    c3ex ≠ [] ∧ "call_7" ∈ truthyCallIds (c3ex.map (·.delta)) ∧
    ∃ m tcs tc, reduce_chat_agent_chunks c3ex = some m ∧
      m.tool_calls = some tcs ∧
      tcs.filter (fun t => t.id = some "call_7") = [tc] ∧
      funcName tc = lastNonEmptyName (matchingToolCalls (c3ex.map (·.delta)) "call_7") ∧
      ((((matchingToolCalls (c3ex.map (·.delta)) "call_7").map funcName).filter
          (fun n => n ≠ "")) ≠ [] → funcName tc ≠ "") :=
  ⟨by decide, by decide, c3_name_never_blanked c3ex (by decide) "call_7" (by decide)⟩

/-- Claim C4: for every non-empty fragment sequence, the reduced message's
content is the concatenation, in arrival order, of every fragment's content
(absent content read as `""`, so empty fragments contribute nothing). -/
theorem c4_content_is_ordered_concat (chunks : List ChatAgentChunk)
    (h : chunks ≠ []) :
    ∃ m, reduce_chat_agent_chunks chunks = some m ∧
      m.content = some (joinAll (chunks.map (fun c => c.delta.content.getD ""))) := by
  match chunks with
  | first :: rest =>
    obtain ⟨m, hm, _, _, hcontent, _⟩ := reduce_fields first rest
    refine ⟨m, hm, ?_⟩
    rw [hcontent, joinAll_msgContents]
    congr 1
    rw [List.map_map]
    rfl

theorem c4_witness :
    c4ex ≠ [] ∧
    ∃ m, reduce_chat_agent_chunks c4ex = some m ∧
      m.content = some (joinAll (c4ex.map (fun c => c.delta.content.getD ""))) ∧
      m.content = some "Hello, world" := by
  refine ⟨by decide, ?_⟩
  obtain ⟨m, hm, hc⟩ := c4_content_is_ordered_concat c4ex (by decide)
  exact ⟨m, hm, hc, by rw [hc]; decide⟩

/-- Claim C9: the reducer never fails on a non-empty fragment sequence (its
access to the first fragment succeeds), and every buffer the chat-agent
adapter ever builds is non-empty — a fragment is appended before any
reduction — so the reducer is never invoked on an empty sequence. -/
theorem c9_reducer_precondition_maintained (chunks : List ChatAgentChunk)
    (h : chunks ≠ []) :
    (reduce_chat_agent_chunks chunks).isSome = true ∧
    ∀ (stream : List ChatAgentChunk) (p : Option String × List ChatAgentChunk),
      p ∈ chatAgentBuffers stream →
        p.2 ≠ [] ∧ (reduce_chat_agent_chunks p.2).isSome = true := by
  constructor
  · match chunks with
    | first :: rest => rfl
  · intro stream p hp
    rw [chatAgentBuffers_eq] at hp
    obtain ⟨i, hi, hpi⟩ := List.mem_map.1 hp
    have hi' : i ∈ stream.map (fun c => c.delta.id) := (mem_firstSeen _ i).1 hi
    obtain ⟨c, hc, hci⟩ := List.mem_map.1 hi'
    have hcf : c ∈ stream.filter (fun x => x.delta.id = i) :=
      List.mem_filter.2 ⟨hc, by simp [hci]⟩
    have hne : stream.filter (fun x => x.delta.id = i) ≠ [] :=
      List.ne_nil_of_mem hcf
    rw [← hpi]
    refine ⟨hne, ?_⟩
    cases hfl : stream.filter (fun x => x.delta.id = i) with
    | nil => exact absurd hfl hne
    | cons y t => rfl

theorem c9_witness :
    c9ex ≠ [] ∧ (reduce_chat_agent_chunks c9ex).isSome = true :=
  ⟨by decide, (c9_reducer_precondition_maintained c9ex (by decide)).1⟩

/-- Claim C10 counterexample: a tool-call delta with an absent call id is NOT
always silently discarded. When no truthy call id ever appears, the
accumulator map stays empty and the reduced message keeps the first
fragment's `tool_calls` verbatim: the id-less delta's name `"f"` and argument
fragment `"x"` appear in the reduced message, on a tool call carrying no call
id at all. -/
theorem c10_counterexample :
    reduce_chat_agent_chunks [c10Chunk] = some c10Reduced ∧
    c10Reduced.tool_calls
      = some [{ id := none, type := "function",
                function := some { name := some "f", arguments := "x" } }] ∧
    ((c10Reduced.tool_calls.getD []).all (fun tc => optTruthy tc.id)) = false := by
  refine ⟨by decide, rfl, rfl⟩

/-- Claim C10 (amended): a falsy-id tool-call delta never creates an
accumulator entry, so whenever any truthy call id appears, every tool call in
the reduced message carries a truthy call id that appeared on some delta; but
when no truthy call id appears at all, the reduced message retains the first
fragment's `tool_calls` field verbatim (which may contain id-less tool
calls). -/
theorem c10_amended_falsy_ids_never_enter_map (chunks : List ChatAgentChunk)
    (h : chunks ≠ []) :
    ∃ m, reduce_chat_agent_chunks chunks = some m ∧
      (truthyCallIds (chunks.map (·.delta)) = [] →
        m.tool_calls = chunks.headI.delta.tool_calls) ∧
      (truthyCallIds (chunks.map (·.delta)) ≠ [] →
        ∃ tcs, m.tool_calls = some tcs ∧
          ∀ tc ∈ tcs, ∃ cid, tc.id = some cid ∧ cid ≠ "" ∧
            cid ∈ truthyCallIds (chunks.map (·.delta))) := by
  match chunks with
  | first :: rest =>
    obtain ⟨m, hm, _, _, _, htc⟩ := reduce_fields first rest
    refine ⟨m, hm, ?_, ?_⟩
    · intro hnil
      have hmap : toolCallMap ((first :: rest).map (·.delta)) = [] := by
        rw [toolCallMap_eq, hnil]
        rfl
      rw [hmap] at htc
      simpa using htc
    · intro hne
      have hmapne : toolCallMap ((first :: rest).map (·.delta)) ≠ [] := by
        rw [toolCallMap_eq]
        intro hx
        rw [List.map_eq_nil_iff, firstSeen_eq_nil_iff] at hx
        exact hne hx
      have hE : (toolCallMap ((first :: rest).map (·.delta))).isEmpty = false := by
        cases hmap : toolCallMap ((first :: rest).map (·.delta)) with
        | nil => exact absurd hmap hmapne
        | cons p q => rfl
      rw [hE, if_neg (by simp)] at htc
      refine ⟨_, htc, ?_⟩
      intro tc htcmem
      rw [toolCallMap_eq, List.map_map] at htcmem
      obtain ⟨cid', hcid', hacc⟩ := List.mem_map.1 htcmem
      have hmem' : cid' ∈ truthyCallIds ((first :: rest).map (·.delta)) :=
        (mem_firstSeen _ cid').1 hcid'
      exact ⟨cid', by rw [← hacc]; rfl,
        mem_truthyCallIds_ne _ _ hmem', hmem'⟩

theorem c10_witness :
    c10ex ≠ [] ∧
    ∃ m, reduce_chat_agent_chunks c10ex = some m ∧
      (truthyCallIds (c10ex.map (·.delta)) = [] →
        m.tool_calls = c10ex.headI.delta.tool_calls) ∧
      (truthyCallIds (c10ex.map (·.delta)) ≠ [] →
        ∃ tcs, m.tool_calls = some tcs ∧
          ∀ tc ∈ tcs, ∃ cid, tc.id = some cid ∧ cid ≠ "" ∧
            cid ∈ truthyCallIds (c10ex.map (·.delta))) :=
  ⟨by decide, c10_amended_falsy_ids_never_enter_map c10ex (by decide)⟩

/-- Claim C5: for every successful chat-agent stream, the finalized messages
are the per-id reductions in first-seen order of the message ids — each id's
fragments reduced in arrival order — and in particular the interleaved stream
`A, B, A, B` finalizes as `[A, B]`. -/
theorem c5_finalize_in_first_seen_order :
    (∀ (query_endpoint : SyncQuery) (input_messages : List Message)
        (stream : List ChatAgentChunk),
      (query_chat_agent_endpoint_and_render query_endpoint input_messages
          (.ok stream)).1.messages
        = (firstSeen (stream.map (fun c => c.delta.id))).filterMap
            (fun i => reduce_chat_agent_chunks
              (stream.filter (fun c => c.delta.id = i)))) ∧
    (query_chat_agent_endpoint_and_render (fun ms => (ms, none)) []
        (.ok c5Stream)).1.messages
      = [{ role := "assistant", id := some "A", content := some "a1a2" },
         { role := "assistant", id := some "B", content := some "b1b2" }] := by
  constructor
  · intro query_endpoint input_messages stream
    show (chatAgentBuffers stream).filterMap (fun p => reduce_chat_agent_chunks p.2) = _
    rw [chatAgentBuffers_eq, List.filterMap_map]
    rfl
  · decide

/-- The messages-so-far component of one responses streaming step grows by
exactly the current event's translated messages. -/
theorem respStep_fst (s : List Message × Option String) (raw_event : RespEvent) :
    (respStep s raw_event).1 = s.1 ++ eventMessages raw_event := by
  unfold respStep eventMessages
  cases raw_event.type with
  | none => simp
  | some t =>
    cases raw_event.item with
    | none => simp
    | some item => simp

theorem respFold_messages (events : List RespEvent) (s : List Message × Option String) :
    (events.foldl respStep s).1 = s.1 ++ events.flatMap eventMessages := by
  induction events generalizing s with
  | nil => simp
  | cons e t ih =>
    simp only [List.foldl_cons, List.flatMap_cons, ih, respStep_fst, List.append_assoc]

/-- Claim C6: every successful responses event stream is translated item by
item in arrival order — the final messages are the in-order concatenation of
each event's translated messages — and the example stream
`[message("Hi"), function_call, function_call_output]` yields exactly three
messages with roles assistant, assistant, tool. -/
theorem c6_responses_translated_in_order :
    (∀ (query_endpoint : SyncQuery) (input_messages : List Message)
        (events : List RespEvent),
      (query_responses_endpoint_and_render query_endpoint input_messages
          (.ok events)).1.messages
        = events.flatMap eventMessages) ∧
    (query_responses_endpoint_and_render (fun ms => (ms, none)) []
        (.ok c6Events)).1.messages
      = [{ role := "assistant", content := some "Hi" },
         { role := "assistant", content := some "",
           tool_calls :=
             some [{ id := some "call_9", type := "function",
                     function := some { name := some "f",
                                        arguments := "\x7b\x7d" } }] },
         { role := "tool", content := some "ok",
           tool_call_id := some "call_9" }] := by
  constructor
  · intro query_endpoint input_messages events
    show (events.foldl respStep ([], none)).1 = _
    rw [respFold_messages]
    rfl
  · decide

/-- Claim C7: a fragment missing its discriminant key (`choices` for the
chat-completions format, `type` for the responses format) and carrying no
request-id envelope is a no-op — the streaming state is unchanged — and
removing it from any position of the stream leaves the fold unchanged, so the
loop is not aborted. -/
theorem c7_missing_discriminant_is_noop :
    (∀ chunk : CCChunk, chunk.choices = none → chunk.databricks_output = none →
       (∀ s, ccStep s chunk = s) ∧
       ∀ (s : String × Option String) (xs ys : List CCChunk),
         (xs ++ chunk :: ys).foldl ccStep s = (xs ++ ys).foldl ccStep s) ∧
    (∀ raw_event : RespEvent, raw_event.type = none →
       raw_event.databricks_output = none →
       (∀ s, respStep s raw_event = s) ∧
       ∀ (s : List Message × Option String) (xs ys : List RespEvent),
         (xs ++ raw_event :: ys).foldl respStep s = (xs ++ ys).foldl respStep s) := by
  constructor
  · intro chunk h1 h2
    have hid : ∀ s, ccStep s chunk = s := by
      intro s
      simp [ccStep, dbReqIdStep, h1, h2]
    refine ⟨hid, ?_⟩
    intro s xs ys
    rw [List.foldl_append, List.foldl_cons, hid, ← List.foldl_append]
  · intro raw_event h1 h2
    have hid : ∀ s, respStep s raw_event = s := by
      intro s
      simp [respStep, dbReqIdStep, h1, h2]
    refine ⟨hid, ?_⟩
    intro s xs ys
    rw [List.foldl_append, List.foldl_cons, hid, ← List.foldl_append]

theorem c7_witness :
    (c7ccChunk.choices = none ∧ c7ccChunk.databricks_output = none ∧
      ccStep ("abc", some "r") c7ccChunk = ("abc", some "r")) ∧
    (c7respEvent.type = none ∧ c7respEvent.databricks_output = none ∧
      respStep ([{ role := "assistant", content := some "Hi" }], some "r") c7respEvent
        = ([{ role := "assistant", content := some "Hi" }], some "r")) :=
  ⟨⟨rfl, rfl, (c7_missing_discriminant_is_noop.1 c7ccChunk rfl rfl).1 _⟩,
   ⟨rfl, rfl, (c7_missing_discriminant_is_noop.2 c7respEvent rfl rfl).1 _⟩⟩

/-- Claim C8: the dispatcher maps `"agent/v1/responses"` to the responses
adapter, `"agent/v2/chat"` to the chat-agent adapter, and every other task
type — unrecognized ones included — to the plain chat-completions adapter;
being a total function into the three-adapter enum, it selects exactly one
adapter and raises no error. -/
theorem c8_unknown_task_type_defaults (task_type : String)
    (h1 : task_type ≠ "agent/v1/responses") (h2 : task_type ≠ "agent/v2/chat") :
    query_endpoint_and_render task_type = .chatCompletions ∧
    query_endpoint_and_render "agent/v1/responses" = .responses ∧
    query_endpoint_and_render "agent/v2/chat" = .chatAgent := by
  refine ⟨?_, by decide, by decide⟩
  unfold query_endpoint_and_render
  rw [if_neg h1, if_neg h2]

theorem c8_witness :
    query_endpoint_and_render "chat/completions" = .chatCompletions ∧
    query_endpoint_and_render "agent/v1/responses" = .responses ∧
    query_endpoint_and_render "agent/v2/chat" = .chatAgent :=
  c8_unknown_task_type_defaults "chat/completions" (by decide) (by decide)

/-- Claim C2: for each of the three adapters, when the streaming call raises
partway through — whatever fragments were already received and accumulated —
the returned response's messages and request id are exactly the result of the
synchronous `query_endpoint` call on the same input messages, and the
fallback is invoked exactly once. -/
theorem c2_fallback_equals_sync_query (query_endpoint : SyncQuery)
    (input_messages : List Message) (cc_received : List CCChunk)
    (agent_received : List ChatAgentChunk) (resp_received : List RespEvent) :
    query_chat_completions_endpoint_and_render query_endpoint input_messages
        (.err cc_received)
      = ({ messages := (query_endpoint input_messages).1,
           request_id := (query_endpoint input_messages).2 }, 1) ∧
    query_chat_agent_endpoint_and_render query_endpoint input_messages
        (.err agent_received)
      = ({ messages := (query_endpoint input_messages).1,
           request_id := (query_endpoint input_messages).2 }, 1) ∧
    query_responses_endpoint_and_render query_endpoint input_messages
        (.err resp_received)
      = ({ messages := (query_endpoint input_messages).1,
           request_id := (query_endpoint input_messages).2 }, 1) :=
  ⟨rfl, rfl, rfl⟩

end App
